import Mathlib

/-!
Verification of the punchpad durable punch pipeline.

This file gives a shallow embedding of the core modules of the punchpad
repository — the durable queue (punchpad_app/core/queue.py), the punch store
(punchpad_app/core/repo.py), the punch orchestrator
(punchpad_app/core/punches.py), the PIN security layer
(punchpad_app/core/security.py) and the reconciler
(punchpad_app/core/reconciler.py) — and proves the claims of the
specification against it.

Modelling conventions, fixed once for the whole file:

* Timestamps are modelled as integers (seconds).  The source passes
  ISO-8601 UTC strings of one fixed format everywhere and converts them
  with fromisoformat and strftime; on the values the program produces this
  encoding is a strictly monotone bijection into the integers, so both
  timestamp comparison (SQL string comparison on the fixed format) and
  datetime subtraction are integer comparison and subtraction.
* JSON values are modelled one level deep: scalars, arrays of scalars and
  flat objects with scalar fields.  Every record the program writes to the
  queue (see mkEvent below, mirroring punches.py) has this shape, and none
  of the claims distinguishes deeper nesting.
* SQLite rows become Lean structures, a table becomes a list of rows in
  rowid order, and lastrowid becomes an explicit counter.  Raised Python
  exceptions become an error value paired with the unchanged state, so
  that "the operation raises and leaves the table unchanged" is a provable
  statement.
* Library calls are handled at two levels.  Where a claim depends on the
  exact acceptance boundary of a library function — base64.b64decode and
  int() inside the credential parser — the call is an abstract parameter
  and the theorem is proved for every behaviour of it, the same way
  pbkdf2_hmac is a parameter because no claim depends on the digest bits.
  Executable example models of those calls (pyIntChars, b64dChars below)
  agree with the library on every value the program itself produces and
  are used to instantiate witnesses and the concrete scan path.
-/

namespace PunchPad

/-- Scalar JSON values: null, booleans, integers and strings.  These are the
field values of every queue record the program produces. -/
inductive JVal where
  | null
  | jbool (b : Bool)
  | num (n : Int)
  | str (s : String)
deriving DecidableEq, Repr

/-- JSON documents as they occur on queue lines, one level deep: a scalar, an
array of scalars, or a flat object. -/
inductive Json where
  | scalar (v : JVal)
  | arr (xs : List JVal)
  | obj (kvs : List (String × JVal))
deriving DecidableEq, Repr

/-- Python truthiness of a scalar JSON value, as used by the guard
if ev_id and ev_id in ids_set in queue.py remove_events. -/
def vTruthy : JVal → Bool
  | .null => false
  | .jbool b => b
  | .num n => decide (n ≠ 0)
  | .str s => decide (s ≠ "")

/-- Dictionary field access obj.get(key): the value stored under the key, or
null (Python None) when the key is absent or the document is not an object. -/
def jget (j : Json) (k : String) : JVal :=
  match j with
  | .obj kvs => (kvs.lookup k).getD JVal.null
  | _ => JVal.null

/-- Whether a parsed line is a dict containing the key id — the condition
under which iter_events yields it (queue.py line 38). -/
def isEventObj : Json → Bool
  | .obj kvs => (kvs.map Prod.fst).contains "id"
  | _ => false

/-- One raw line of the queue file, as seen by the readers: it is blank after
stripping, or json.loads fails on it (truncated or malformed write), or it
parses to a JSON document. -/
inductive QLine where
  | blank
  | corrupt
  | parsed (j : Json)
deriving DecidableEq, Repr

/-- State of the queue file: its list of lines in file order. -/
abbrev QueueFile := List QLine

/-- Embedding of queue.py enqueue_event: json.dumps of the event plus a
newline is appended to the file and fsynced.  json.dumps of a dict is one
non-blank line that parses back to the same document, hence one parsed line. -/
def enqueue_event (q : QueueFile) (ev : Json) : QueueFile :=
  q ++ [QLine.parsed ev]

/-- Embedding of queue.py iter_events: scan the file line by line, skip blank
lines, skip lines json.loads rejects, skip parsed values that are not a dict
or lack the key id, and yield the remaining documents in file order. -/
def iter_events : QueueFile → List Json
  | [] => []
  | QLine.blank :: rest => iter_events rest
  | QLine.corrupt :: rest => iter_events rest
  | QLine.parsed j :: rest =>
      if isEventObj j then j :: iter_events rest else iter_events rest

/-- Event id of a line as computed inside queue.py remove_events:
obj.get("id") if the line parses to a dict, Python None (null) otherwise. -/
def lineId : QLine → JVal
  | QLine.parsed (Json.obj kvs) => (kvs.lookup "id").getD JVal.null
  | _ => JVal.null

/-- Event id of a yielded event document, same computation as lineId but on
the document itself. -/
def evId (e : Json) : JVal := jget e "id"

/-- Embedding of queue.py remove_events: with an empty id list the call
returns at once; otherwise a replacement file is written holding exactly the
lines whose id is falsy or not in the id set, and atomically renamed over the
original.  The temporary file and fsync mechanics leave no other observable
state, so the result is the filtered line list. -/
def remove_events (ids : List JVal) (q : QueueFile) : QueueFile :=
  if ids = [] then q
  else q.filter (fun line => !(vTruthy (lineId line) && ids.contains (lineId line)))

/-- Row of the punches table (repo.py): rowid, employee foreign key, required
clock-in timestamp, nullable clock-out timestamp, method and note as stored.
Method and note are stored verbatim, so they stay scalar JSON values. -/
structure Punch where
  id : Nat
  employee_id : Int
  clock_in : Int
  clock_out : Option Int
  method : JVal
  note : JVal
deriving DecidableEq, Repr

/-- State of the punches table: rows in rowid order plus the next rowid that
an INSERT would allocate. -/
structure Store where
  punches : List Punch
  nextId : Nat
deriving DecidableEq, Repr

/-- Rows matching SELECT ... WHERE employee_id=? AND clock_out IS NULL, in
rowid order. -/
def openPunches (st : Store) (emp : Int) : List Punch :=
  st.punches.filter (fun p => decide (p.employee_id = emp) && p.clock_out.isNone)

/-- Embedding of repo.py get_open_punch: fetchone on the open-punch query. -/
def get_open_punch (st : Store) (emp : Int) : Option Punch :=
  (openPunches st emp).head?

/-- Embedding of repo.py insert_punch: raise IntegrityError if any open punch
exists for the employee, otherwise insert one open row and return its rowid.
The error case carries the unchanged table. -/
def insert_punch (st : Store) (emp : Int) (clock_in_ts : Int) (method note : JVal) :
    Except String Nat × Store :=
  if openPunches st emp ≠ [] then
    (Except.error "open punch already exists", st)
  else
    (Except.ok st.nextId,
     { punches := st.punches ++ [⟨st.nextId, emp, clock_in_ts, none, method, note⟩],
       nextId := st.nextId + 1 })

/-- Embedding of repo.py close_open_punch: fetch all open punches of the
employee; raise IntegrityError unless there is exactly one; otherwise set its
clock-out (UPDATE ... WHERE id=?) and return its rowid. -/
def close_open_punch (st : Store) (emp : Int) (clock_out_ts : Int) :
    Except String Nat × Store :=
  match openPunches st emp with
  | [p] =>
      (Except.ok p.id,
       { st with punches := st.punches.map (fun q =>
           if q.id = p.id then { q with clock_out := some clock_out_ts } else q) })
  | _ => (Except.error "expected exactly one open punch", st)

/-- Rows of one employee, as in SELECT ... WHERE employee_id=?. -/
def punchesOf (st : Store) (emp : Int) : List Punch :=
  st.punches.filter (fun p => decide (p.employee_id = emp))

/-- Row selected by ORDER BY id DESC LIMIT 1 over the employee rows: the row
of maximal rowid, none when the employee has no rows. -/
def lastPunch (st : Store) (emp : Int) : Option Punch :=
  (punchesOf st emp).foldl
    (fun acc p =>
      match acc with
      | none => some p
      | some q => if q.id ≤ p.id then some p else some q)
    none

/-- Embedding of punches.py should_block_duplicate: look at the most recent
punch row of the employee; its last action is in when the clock-out is null
and out otherwise, with the matching timestamp; block exactly when the last
action equals the attempted action and the elapsed time lies in [0, window). -/
def should_block_duplicate (st : Store) (emp : Int) (action : String)
    (debounce_seconds : Int) (now : Int) : Bool :=
  match lastPunch st emp with
  | none => false
  | some p =>
      let lastAction : String := if p.clock_out = none then "in" else "out"
      let lastTs : Int := match p.clock_out with | none => p.clock_in | some t => t
      let delta : Int := now - lastTs
      decide (lastAction = action) && decide (0 ≤ delta) && decide (delta < debounce_seconds)

/-- Result dictionary of the orchestrator calls in punches.py, with one
optional field per key that some branch sets. -/
structure PunchResult where
  status : String
  queued : Option Bool := none
  punch_id : Option Nat := none
  event_id : Option String := none
  ts : Option Int := none
  reason : Option String := none
  retry_after_seconds : Option Int := none
  action : Option String := none
deriving DecidableEq, Repr

/-- Queue event dictionary built by clock_in and clock_out in punches.py, in
the key order of the source. -/
def mkEvent (fid : String) (kind : String) (emp : Int) (ts : Int)
    (method note : JVal) : Json :=
  Json.obj [("id", JVal.str fid), ("kind", JVal.str kind),
            ("employee_id", JVal.num emp), ("ts", JVal.num ts),
            ("note", note), ("method", method)]

/-- Embedding of punches.py clock_in: if an open punch exists, or the insert
raises, fall back to enqueueing a fresh clock_in event and report queued;
otherwise report ok with the new punch id.  The fresh uuid4 of the source is
the parameter fid, and the wall clock read is the parameter ts. -/
def clock_in (fid : String) (st : Store) (q : QueueFile) (emp : Int) (ts : Int)
    (method note : JVal) : PunchResult × Store × QueueFile :=
  if get_open_punch st emp ≠ none then
    ({ status := "queued", queued := some true, event_id := some fid, ts := some ts }, st,
     enqueue_event q (mkEvent fid "clock_in" emp ts method note))
  else
    match insert_punch st emp ts method note with
    | (Except.ok pid, st') =>
        ({ status := "ok", queued := some false, punch_id := some pid, ts := some ts }, st', q)
    | (Except.error _, st') =>
        ({ status := "queued", queued := some true, event_id := some fid, ts := some ts }, st',
         enqueue_event q (mkEvent fid "clock_in" emp ts method note))

/-- Embedding of punches.py clock_out: close the open punch, and on any
failure enqueue a fresh clock_out event and report queued. -/
def clock_out (fid : String) (st : Store) (q : QueueFile) (emp : Int) (ts : Int)
    (method note : JVal) : PunchResult × Store × QueueFile :=
  match close_open_punch st emp ts with
  | (Except.ok pid, st') =>
      ({ status := "ok", queued := some false, punch_id := some pid, ts := some ts }, st', q)
  | (Except.error _, st') =>
      ({ status := "queued", queued := some true, event_id := some fid, ts := some ts }, st',
       enqueue_event q (mkEvent fid "clock_out" emp ts method note))

/-- Embedding of punches.py toggle_punch: the desired action is out when an
open punch exists and in otherwise; if should_block_duplicate fires, return
the blocked dictionary with reason duplicate and retry_after_seconds
max(0, window); otherwise run clock_in or clock_out and tag the result with
the action.  The debounce window (kiosk.debounce_seconds, default 30, parsed
with int) is the parameter w. -/
def toggle_punch (w : Int) (fid : String) (st : Store) (q : QueueFile)
    (emp : Int) (method note : JVal) (now : Int) : PunchResult × Store × QueueFile :=
  let action : String := if openPunches st emp ≠ [] then "out" else "in"
  if should_block_duplicate st emp action w now then
    ({ status := "blocked", reason := some "duplicate", action := some action,
       retry_after_seconds := some (max 0 w) }, st, q)
  else
    let r := if action = "in" then clock_in fid st q emp now method note
             else clock_out fid st q emp now method note
    ({ r.1 with action := some action }, r.2.1, r.2.2)

/-- Abstract key-derivation function standing for
hashlib.pbkdf2_hmac("sha256", pin, salt, iterations): the pin, the salt bytes
and the iteration count determine the derived key bytes.  No claim depends on
the actual digest bits, so it stays a parameter of the security layer. -/
abbrev Pbkdf := String → List Nat → Int → List Nat

/-- Value of one base64 alphabet character, none outside the alphabet. -/
def b64Val (c : Char) : Option Nat :=
  if 'A' ≤ c ∧ c ≤ 'Z' then some (c.toNat - 65)
  else if 'a' ≤ c ∧ c ≤ 'z' then some (c.toNat - 97 + 26)
  else if '0' ≤ c ∧ c ≤ '9' then some (c.toNat - 48 + 52)
  else if c = '+' then some 62
  else if c = '/' then some 63
  else none

/-- Characters base64.b64decode keeps for the padding check: the alphabet and
the padding character; everything else is discarded first. -/
def b64Keep (c : Char) : Bool := (b64Val c).isSome || c = '='

/-- Decode kept characters four at a time into bytes; padding is accepted in
the final quad only, and a leftover group of fewer than four characters is
the incorrect-padding error.  This is an executable example model of the
library decode: it agrees with base64.b64decode on every canonical encoding
(everything make_pin_hash emits) but is stricter on exotic inputs such as
data following a padded quad, which b64decode truncates at the padding
instead of rejecting; the credential-parsing theorem below therefore takes
the decode as a parameter rather than committing to this boundary. -/
def b64Groups : List Char → Option (List Nat)
  | [] => some []
  | a :: b :: c :: d :: rest =>
      match b64Val a, b64Val b with
      | some va, some vb =>
          if c = '=' ∧ d = '=' ∧ rest = [] then
            some [va * 4 + vb / 16]
          else
            match b64Val c with
            | some vc =>
                if d = '=' ∧ rest = [] then
                  some [va * 4 + vb / 16, (vb % 16) * 16 + vc / 4]
                else
                  match b64Val d with
                  | some vd =>
                      (b64Groups rest).map (fun tl =>
                        (va * 4 + vb / 16) :: ((vb % 16) * 16 + vc / 4) ::
                        ((vc % 4) * 64 + vd) :: tl)
                  | none => none
            | none => none
      | _, _ => none
  | _ => none

/-- Decode of a character sequence (base64.b64decode body): discard
characters outside the alphabet and padding, then decode; none models the
raised binascii error. -/
def b64dChars (cs : List Char) : Option (List Nat) :=
  b64Groups (cs.filter b64Keep)

/-- Example model of base64.b64decode on ascii text. -/
def b64d (s : String) : Option (List Nat) :=
  b64dChars s.toList

/-- Digits of a decimal literal to a number, none when empty or when any
character is not a digit. -/
def digitsToNat : List Char → Option Nat
  | [] => none
  | cs =>
      cs.foldl
        (fun acc c =>
          match acc with
          | none => none
          | some n => if c.isDigit then some (n * 10 + (c.toNat - 48)) else none)
        (some 0)

/-- Leading and trailing whitespace characters removed, as Python str.strip
does before int() parses. -/
def trimChars (cs : List Char) : List Char :=
  ((cs.dropWhile Char.isWhitespace).reverse.dropWhile Char.isWhitespace).reverse

/-- Executable example model of Python int() on a character sequence:
surrounding whitespace is stripped, an optional sign precedes ascii digits,
and anything else raises (none).  The library function additionally accepts
underscore separators between digits, unicode digits and unicode
whitespace; the two agree on every field the program itself writes
(make_pin_hash emits plain digits, event ids and employee ids are produced
by the orchestrator).  The credential-parsing theorem below takes the
integer parse as a parameter and so does not depend on this boundary. -/
def pyIntChars (cs : List Char) : Option Int :=
  match trimChars cs with
  | '+' :: rest => (digitsToNat rest).map Int.ofNat
  | '-' :: rest => (digitsToNat rest).map (fun n => -(n : Int))
  | rest => (digitsToNat rest).map Int.ofNat

/-- Example model of Python int() on a string. -/
def pyIntStr (s : String) : Option Int :=
  pyIntChars s.toList

/-- Model of Python str.split on a single separator character: splitting the
empty text gives one empty field, and every separator occurrence starts a new
field. -/
def splitOnChar (sep : Char) : List Char → List (List Char)
  | [] => [[]]
  | c :: cs =>
      match splitOnChar sep cs with
      | [] => if c = sep then [[], [c]] else [[c]]
      | g :: gs => if c = sep then [] :: g :: gs else (c :: g) :: gs

/-- Fields of stored.split on the dollar separator. -/
def splitDollar (stored : String) : List (List Char) :=
  splitOnChar '$' stored.toList

/-- Embedding of security.py _parse_stored: split the stored credential on
the dollar separator into exactly four fields scheme, iterations, salt and
digest; reject a scheme other than pbkdf2_sha256, a non-integer or
below-150000 iteration count, undecodable base64, and a salt whose decoded
length is not 16 bytes.  Every raise becomes none. -/
def parse_stored (stored : String) : Option (Int × List Nat × List Nat) :=
  match splitDollar stored with
  | [scheme, iter_s, salt_b64, hash_b64] =>
      if scheme ≠ "pbkdf2_sha256".toList then none
      else
        match pyIntChars iter_s with
        | none => none
        | some iterations =>
            if iterations < 150000 then none
            else
              match b64dChars salt_b64 with
              | none => none
              | some salt =>
                  match b64dChars hash_b64 with
                  | none => none
                  | some digest =>
                      if salt.length ≠ 16 then none
                      else some (iterations, salt, digest)
  | _ => none

/-- Embedding of security.py verify_pin: parse the stored credential, derive
a key from the supplied pin with the stored salt and iteration count, and
compare digests; any exception inside yields False.  hmac.compare_digest is
equality on byte strings (its constant-time property has no value content). -/
def verify_pin (f : Pbkdf) (pin stored : String) : Bool :=
  match parse_stored stored with
  | some (iterations, salt, expected) => f pin salt iterations == expected
  | none => false

/-- Shape of a model of Python int() on the characters of a field: the
credential-parsing theorem below holds for every such function, so it does
not commit to the exact acceptance boundary of the library (underscore
separators, unicode digits, unicode whitespace). -/
abbrev IntParse := List Char → Option Int

/-- Shape of a model of base64.b64decode on the characters of a field. -/
abbrev B64Decode := List Char → Option (List Nat)

/-- Embedding of security.py _parse_stored with its two library calls, int()
on the iteration field and base64.b64decode on the salt and digest fields,
left as parameters: the control flow is exactly that of parse_stored above,
and instantiating the parameters with the executable example models
pyIntChars and b64dChars recovers parse_stored definitionally (see
parse_stored_eq_with).  Instantiating them instead with the true behaviour
of the library functions — whatever it is on exotic inputs — gives the
faithful parse of the program. -/
def parse_storedWith (intP : IntParse) (b64P : B64Decode) (stored : String) :
    Option (Int × List Nat × List Nat) :=
  match splitDollar stored with
  | [scheme, iter_s, salt_b64, hash_b64] =>
      if scheme ≠ "pbkdf2_sha256".toList then none
      else
        match intP iter_s with
        | none => none
        | some iterations =>
            if iterations < 150000 then none
            else
              match b64P salt_b64 with
              | none => none
              | some salt =>
                  match b64P hash_b64 with
                  | none => none
                  | some digest =>
                      if salt.length ≠ 16 then none
                      else some (iterations, salt, digest)
  | _ => none

/-- security.py verify_pin with the same two library calls abstracted,
matching parse_storedWith. -/
def verify_pinWith (f : Pbkdf) (intP : IntParse) (b64P : B64Decode)
    (pin stored : String) : Bool :=
  match parse_storedWith intP b64P stored with
  | some (iterations, salt, expected) => f pin salt iterations == expected
  | none => false

theorem parse_stored_eq_with (stored : String) :
    parse_stored stored = parse_storedWith pyIntChars b64dChars stored := rfl

theorem verify_pin_eq_with (f : Pbkdf) (pin stored : String) :
    verify_pin f pin stored = verify_pinWith f pyIntChars b64dChars pin stored := rfl

/-- Row of the employees table as read by the PIN scan: rowid, stored
credential and active flag. -/
structure Employee where
  id : Int
  pin_hash : String
  active : Bool
deriving DecidableEq, Repr

/-- Embedding of security.py verify_employee_pin: iterate the rows the query
SELECT id, pin_hash FROM employees WHERE active=1 yields, in table order, and
return the id of the first row whose stored credential verifies. -/
def verify_employee_pin (f : Pbkdf) (pin : String) : List Employee → Option Int
  | [] => none
  | e :: rest =>
      if e.active && verify_pin f pin e.pin_hash then some e.id
      else verify_employee_pin f pin rest

/-- Row of the pin_attempts table (append-only ledger). -/
structure PinAttempt where
  ts : Int
  source : String
  success : Bool
  employee_id : Option Int := none
  reason : Option String := none
deriving DecidableEq, Repr

/-- Failed attempts of a source at or after the window start, the rows the
query WHERE source=? AND success=0 AND ts>=? selects. -/
def failedAttemptsFrom (attempts : List PinAttempt) (source : String)
    (windowStart : Int) : List PinAttempt :=
  attempts.filter (fun a =>
    a.source == source && a.success == false && decide (windowStart ≤ a.ts))

/-- Embedding of security.py check_pin_lockout.  The three settings are the
parameters, already parsed with int: attempt window in seconds, maximum
attempts, lockout duration in minutes.  The query keeps failed attempts of
the source with ts at or after now minus the window, ordered by ts
descending; when their number reaches the maximum, the first row is the most
recent failure and rows[0] on an empty list raises (none); locked exactly
while now is before that failure plus the lockout duration. -/
def check_pin_lockout (window_s max_attempts lockout_min : Int)
    (attempts : List PinAttempt) (source : String) (now : Int) :
    Option (Bool × Option Int) :=
  let rows := failedAttemptsFrom attempts source (now - window_s)
  if max_attempts ≤ (rows.length : Int) then
    match (rows.map PinAttempt.ts).max? with
    | none => none
    | some most_recent =>
        if now < most_recent + lockout_min * 60 then
          some (true, some (most_recent + lockout_min * 60))
        else some (false, none)
  else some (false, none)

/-- Model of Python int() applied to a scalar event field, as in
int(emp_id) in reconciler.py: an integer stays itself, a boolean is 0 or 1,
a numeric string parses, and anything else raises (none). -/
def pyInt : JVal → Option Int
  | .num n => some n
  | .jbool b => some (if b then 1 else 0)
  | .str s => pyIntStr s
  | .null => none

/-- Modelled from the spec: the punches table schema (the migration files are
not among the sources; only repo.py uses the table) declares the clock-in
timestamp required, per the data model section of the spec.  A timestamp
field is therefore an integer under the timestamp convention of this file,
and an event carrying anything else fails the row write (none). -/
def tsOf : JVal → Option Int
  | .num n => some n
  | _ => none

/-- Embedding of reconciler.py _apply_event: a clock_in event calls
insert_punch with the int-coerced employee id and the event timestamp, a
clock_out event calls close_open_punch, and any other kind is only warned
about and reported as handled, leaving the store unchanged.  A raise
anywhere — int() failing, a missing timestamp, or the store operation
rejecting — is none, caught by the cycle below. -/
def applyEvent (st : Store) (ev : Json) : Option Store :=
  let kind := jget ev "kind"
  if kind = JVal.str "clock_in" then
    match pyInt (jget ev "employee_id"), tsOf (jget ev "ts") with
    | some emp, some ts =>
        match insert_punch st emp ts (jget ev "method") (jget ev "note") with
        | (Except.ok _, st') => some st'
        | (Except.error _, _) => none
    | _, _ => none
  else if kind = JVal.str "clock_out" then
    match pyInt (jget ev "employee_id"), tsOf (jget ev "ts") with
    | some emp, some ts =>
        match close_open_punch st emp ts with
        | (Except.ok _, st') => some st'
        | (Except.error _, _) => none
    | _, _ => none
  else some st

/-- Outcome of one reconciler cycle: the store after the sweep, the ids of
the events applied without error in sweep order, the arguments of every
remove_events call the cycle made, and the queue file afterwards. -/
structure CycleResult where
  store : Store
  applied_ids : List JVal
  removeCalls : List (List JVal)
  queue : QueueFile
deriving DecidableEq, Repr

/-- One step of the sweep: apply the event to the store accumulated so far;
on success record its id, on a raise keep store and ids unchanged (the event
stays queued). -/
def sweepStep (acc : Store × List JVal) (ev : Json) : Store × List JVal :=
  match applyEvent acc.1 ev with
  | some st' => (st', acc.2 ++ [evId ev])
  | none => acc

/-- Embedding of one iteration of reconciler.py _run_loop: snapshot the
queued events (list(iter_events()) runs to completion before any mutation),
apply each in order collecting the ids of the successes, keep a failing event
untouched for the next tick, and call remove_events once with the collected
ids — but only when at least one event applied (the call sits under
if applied_ids:). -/
def reconcile_cycle (q : QueueFile) (st : Store) : CycleResult :=
  let evs := iter_events q
  let swept := evs.foldl sweepStep (st, [])
  if swept.2 = [] then
    { store := swept.1, applied_ids := swept.2, removeCalls := [], queue := q }
  else
    { store := swept.1, applied_ids := swept.2,
      removeCalls := [swept.2], queue := remove_events swept.2 q }

/-- Invariant of the punch store: every employee has at most one open punch
(a row with null clock-out). -/
def punchInv (st : Store) : Prop :=
  ∀ emp : Int, (openPunches st emp).length ≤ 1

/-- Lines the queue reader yields nothing for: blank lines, lines json.loads
rejects, and parsed documents that are not a dict or lack the key id. -/
def skippedLine : QLine → Bool
  | QLine.blank => true
  | QLine.corrupt => true
  | QLine.parsed j => !isEventObj j

theorem iter_events_append (xs ys : QueueFile) :
    iter_events (xs ++ ys) = iter_events xs ++ iter_events ys := by
  induction xs with
  | nil => rfl
  | cons l rest ih =>
      cases l with
      | blank => simpa [iter_events] using ih
      | corrupt => simpa [iter_events] using ih
      | parsed j =>
          by_cases h : isEventObj j = true
          · simp [iter_events, h, ih]
          · simp [iter_events, h, ih]

theorem lineId_parsed (j : Json) : lineId (QLine.parsed j) = evId j := by
  cases j <;> rfl

theorem iter_events_filter (p : QLine → Bool) (pe : Json → Bool)
    (hb : p QLine.blank = true) (hc : p QLine.corrupt = true)
    (hp : ∀ j, p (QLine.parsed j) = pe j) (q : QueueFile) :
    iter_events (q.filter p) = (iter_events q).filter pe := by
  induction q with
  | nil => rfl
  | cons l rest ih =>
      cases l with
      | blank => simp [List.filter_cons, hb, iter_events, ih]
      | corrupt => simp [List.filter_cons, hc, iter_events, ih]
      | parsed j =>
          cases hpj : p (QLine.parsed j) with
          | true =>
              have hej : pe j = true := by rw [← hp]; exact hpj
              by_cases he : isEventObj j = true
              · simp [List.filter_cons, hpj, iter_events, he, hej, ih]
              · simp [List.filter_cons, hpj, iter_events, he, ih]
          | false =>
              have hej : pe j = false := by rw [← hp]; exact hpj
              by_cases he : isEventObj j = true
              · simp [List.filter_cons, hpj, iter_events, he, hej, ih]
              · simp [List.filter_cons, hpj, iter_events, he, ih]

theorem iter_events_remove_events (ids : List JVal) (q : QueueFile) :
    iter_events (remove_events ids q) =
      (iter_events q).filter (fun e => !(vTruthy (evId e) && ids.contains (evId e))) := by
  by_cases hids : ids = []
  · subst hids
    simp only [remove_events, if_pos rfl]
    exact (List.filter_eq_self.mpr (fun a _ => by simp)).symm
  · simp only [remove_events, if_neg hids]
    exact iter_events_filter _ _ rfl rfl (fun j => by rw [lineId_parsed]) q

theorem iter_events_enqueue (q : QueueFile) (e : Json) (he : isEventObj e = true) :
    iter_events (enqueue_event q e) = iter_events q ++ [e] := by
  unfold enqueue_event
  rw [iter_events_append]
  simp [iter_events, he]

/-- C5: enqueue followed by iterate round-trips every JSON event record (a
document that is an object carrying an id field, the shape of every
QueuedEvent) with exact field equality, also when iterate is restarted fresh
from the resulting file state after a crash — iter_events is a function of
the durable file state alone — and a sequence of enqueues is read back in
FIFO append order after the previously queued events. -/
theorem C5_enqueue_iterate_fifo_roundtrip (q : QueueFile) (e : Json) (es : List Json)
    (he : isEventObj e = true) (hes : ∀ x ∈ es, isEventObj x = true) :
    iter_events (enqueue_event q e) = iter_events q ++ [e] ∧
    iter_events (es.foldl enqueue_event q) = iter_events q ++ es := by
  refine ⟨iter_events_enqueue q e he, ?_⟩
  induction es generalizing q with
  | nil => simp
  | cons x xs ih =>
      simp only [List.foldl_cons]
      rw [ih (enqueue_event q x) (fun a ha => hes a (List.mem_cons_of_mem x ha)),
        iter_events_enqueue q x (hes x (List.mem_cons_self x xs))]
      simp

def c5File : QueueFile := [QLine.corrupt, QLine.parsed (Json.scalar (JVal.num 7))]

def c5Event : Json :=
  Json.obj [("id", JVal.str "a1"), ("kind", JVal.str "clock_in"),
            ("employee_id", JVal.num 3), ("ts", JVal.num 100),
            ("note", JVal.null), ("method", JVal.str "kiosk")]

def c5Event2 : Json :=
  Json.obj [("id", JVal.str "a2"), ("kind", JVal.str "clock_out"),
            ("employee_id", JVal.num 3), ("ts", JVal.num 200),
            ("note", JVal.null), ("method", JVal.str "kiosk")]

theorem C5_enqueue_iterate_fifo_roundtrip_witness :
    isEventObj c5Event = true ∧
    iter_events (enqueue_event c5File c5Event) = iter_events c5File ++ [c5Event] ∧
    iter_events ([c5Event, c5Event2].foldl enqueue_event c5File) =
      iter_events c5File ++ [c5Event, c5Event2] :=
  ⟨by decide,
   (C5_enqueue_iterate_fifo_roundtrip c5File c5Event [c5Event, c5Event2]
      (by decide) (by decide)).1,
   (C5_enqueue_iterate_fifo_roundtrip c5File c5Event [c5Event, c5Event2]
      (by decide) (by decide)).2⟩

/-- C7: iter_events is a total function of arbitrary file content — in this
embedding every line is blank, rejected by json.loads, or parsed, and the
reader is defined on all three — and deleting any single skipped line
(malformed, truncated, empty, non-object, or id-less) from anywhere in the
file leaves the yielded events unchanged: nothing is raised for it, and every
well-formed record after it is still yielded. -/
theorem C7_iterate_total_skips_corruption (xs ys : QueueFile) (l : QLine)
    (h : skippedLine l = true) :
    iter_events (xs ++ l :: ys) = iter_events xs ++ iter_events ys := by
  rw [iter_events_append]
  cases l with
  | blank => rfl
  | corrupt => rfl
  | parsed j =>
      have hj : isEventObj j = false := by
        simpa [skippedLine] using h
      simp [iter_events, hj]

theorem C7_iterate_total_skips_corruption_witness :
    skippedLine QLine.corrupt = true ∧
    iter_events ([QLine.parsed c5Event] ++ QLine.corrupt :: [QLine.parsed c5Event2]) =
      iter_events [QLine.parsed c5Event] ++ iter_events [QLine.parsed c5Event2] :=
  ⟨by decide,
   C7_iterate_total_skips_corruption [QLine.parsed c5Event] [QLine.parsed c5Event2]
     QLine.corrupt (by decide)⟩

def c6File : QueueFile := [QLine.parsed (Json.obj [("id", JVal.str "")])]

/-- C6 counterexample: the claim reads remove(ids) as leaving exactly the
events whose ids are not in the given list.  With a queued event whose id is
the empty string and ids containing exactly that empty string, the guard
if ev_id and ev_id in ids_set in remove_events treats the falsy id as
missing and keeps the line, so the event whose id IS in the list survives a
subsequent iterate. -/
theorem C6_remove_complement_cex :
    iter_events (remove_events [JVal.str ""] c6File) ≠
      (iter_events c6File).filter (fun e => !([JVal.str ""].contains (evId e))) := by
  decide

/-- C6 amended: remove(ids) leaves exactly the queued events whose id is
falsy (null, empty string, zero, false) or not in the given list, in their
original relative order, as observed by iterate; an event whose id is truthy
and listed is removed, and an id matching no queued event has no effect. -/
theorem C6_remove_complement_amended (ids : List JVal) (q : QueueFile) :
    iter_events (remove_events ids q) =
      (iter_events q).filter (fun e => !(vTruthy (evId e) && ids.contains (evId e))) :=
  iter_events_remove_events ids q

/-- C8: close_open_punch returns a punch id and closes that punch exactly
when the employee has exactly one open punch.  With zero or several open
punches it returns the explicit error and the table untouched — the
multiple-open state surfaces as a hard error instead of being repaired.  On
success the returned id is the open punch's id, that punch is stored with
its clock-out set, every row with a different id is kept verbatim, and the
employee has no open punch afterwards. -/
theorem C8_close_requires_exactly_one_open (st : Store) (emp : Int) (ts : Int) :
    ((∃ pid, (close_open_punch st emp ts).1 = Except.ok pid) ↔
      (openPunches st emp).length = 1) ∧
    ((openPunches st emp).length ≠ 1 →
      close_open_punch st emp ts = (Except.error "expected exactly one open punch", st)) ∧
    (∀ p, openPunches st emp = [p] →
      (close_open_punch st emp ts).1 = Except.ok p.id ∧
      openPunches (close_open_punch st emp ts).2 emp = [] ∧
      (∀ r ∈ st.punches, r.id ≠ p.id → r ∈ (close_open_punch st emp ts).2.punches) ∧
      { p with clock_out := some ts } ∈ (close_open_punch st emp ts).2.punches) := by
  refine ⟨?_, ?_, ?_⟩
  · constructor
    · rintro ⟨pid, hok⟩
      match hos : openPunches st emp with
      | [p] => simp
      | [] => rw [close_open_punch, hos] at hok; exact absurd hok (by simp)
      | p :: q :: rest => rw [close_open_punch, hos] at hok; exact absurd hok (by simp)
    · intro hlen
      match hos : openPunches st emp with
      | [p] =>
          refine ⟨p.id, ?_⟩
          rw [close_open_punch, hos]
      | [] => rw [hos] at hlen; simp at hlen
      | p :: q :: rest => rw [hos] at hlen; simp at hlen
  · intro hlen
    match hos : openPunches st emp with
    | [p] => rw [hos] at hlen; simp at hlen
    | [] => rw [close_open_punch, hos]
    | p :: q :: rest => rw [close_open_punch, hos]
  · intro p hos
    have honly : ∀ r ∈ st.punches,
        (decide (r.employee_id = emp) && r.clock_out.isNone) = true → r = p := by
      intro r hr hpred
      have : r ∈ openPunches st emp := List.mem_filter.mpr ⟨hr, hpred⟩
      rw [hos] at this
      simpa using this
    have hpmem : p ∈ st.punches := by
      have : p ∈ openPunches st emp := by rw [hos]; exact List.mem_singleton_self p
      exact (List.mem_filter.mp this).1
    refine ⟨?_, ?_, ?_, ?_⟩
    · rw [close_open_punch, hos]
    · rw [close_open_punch, hos]
      simp only [openPunches]
      rw [List.filter_eq_nil_iff]
      intro a ha
      obtain ⟨r, hr, hfr⟩ := List.mem_map.mp ha
      by_cases hid : r.id = p.id
      · rw [if_pos hid] at hfr
        subst hfr
        simp
      · rw [if_neg hid] at hfr
        subst hfr
        intro hpred
        exact hid (congrArg Punch.id (honly r hr (by simpa using hpred)))
    · intro r hr hid
      rw [close_open_punch, hos]
      simp only []
      refine List.mem_map.mpr ⟨r, hr, ?_⟩
      rw [if_neg hid]
    · rw [close_open_punch, hos]
      exact List.mem_map.mpr ⟨p, hpmem, by rw [if_pos rfl]⟩

theorem clock_in_status_ne_blocked (fid : String) (st : Store) (q : QueueFile)
    (emp ts : Int) (method note : JVal) :
    (clock_in fid st q emp ts method note).1.status ≠ "blocked" := by
  unfold clock_in
  split
  · simp
  · split <;> simp

theorem clock_out_status_ne_blocked (fid : String) (st : Store) (q : QueueFile)
    (emp ts : Int) (method note : JVal) :
    (clock_out fid st q emp ts method note).1.status ≠ "blocked" := by
  unfold clock_out
  split <;> simp

/-- C2: with a most recent punch row on file for the employee, toggle_punch
returns status blocked with reason duplicate and retry_after_seconds equal to
the debounce window exactly when the last action (in when the most recent
row's clock-out is null, else out, with the matching timestamp) equals the
desired action (out when an open punch exists, else in) and the elapsed
seconds lie in the half-open interval [0, window); hence a gap of exactly the
window is not blocked while a gap of window minus one second is. -/
theorem C2_toggle_blocked_iff_debounce (w : Int) (fid : String) (st : Store)
    (q : QueueFile) (emp : Int) (method note : JVal) (now : Int) (p : Punch)
    (hp : lastPunch st emp = some p) :
    ((toggle_punch w fid st q emp method note now).1.status = "blocked" ∧
     (toggle_punch w fid st q emp method note now).1.reason = some "duplicate" ∧
     (toggle_punch w fid st q emp method note now).1.retry_after_seconds = some w) ↔
    ((if p.clock_out = none then "in" else "out") =
       (if openPunches st emp ≠ [] then "out" else "in") ∧
     0 ≤ now - p.clock_out.getD p.clock_in ∧
     now - p.clock_out.getD p.clock_in < w) := by
  have hts : (match p.clock_out with | none => p.clock_in | some t => t) =
      p.clock_out.getD p.clock_in := by
    cases p.clock_out <;> rfl
  have hunf : should_block_duplicate st emp
      (if openPunches st emp ≠ [] then "out" else "in") w now =
        (decide ((if p.clock_out = none then "in" else "out") =
            (if openPunches st emp ≠ [] then "out" else "in")) &&
         decide (0 ≤ now - p.clock_out.getD p.clock_in) &&
         decide (now - p.clock_out.getD p.clock_in < w)) := by
    unfold should_block_duplicate
    rw [hp]
    simp only [hts]
  cases hbb : should_block_duplicate st emp
      (if openPunches st emp ≠ [] then "out" else "in") w now with
  | true =>
      have hrhs : (if p.clock_out = none then "in" else "out") =
          (if openPunches st emp ≠ [] then "out" else "in") ∧
          0 ≤ now - p.clock_out.getD p.clock_in ∧
          now - p.clock_out.getD p.clock_in < w := by
        rw [hunf] at hbb
        simp only [Bool.and_eq_true, decide_eq_true_eq] at hbb
        exact ⟨hbb.1.1, hbb.1.2, hbb.2⟩
      have hmax : max 0 w = w :=
        max_eq_right (le_of_lt (lt_of_le_of_lt hrhs.2.1 hrhs.2.2))
      have hres : (toggle_punch w fid st q emp method note now).1 =
          { status := "blocked", reason := some "duplicate",
            action := some (if openPunches st emp ≠ [] then "out" else "in"),
            retry_after_seconds := some (max 0 w) } := by
        unfold toggle_punch
        simp only [hbb, if_true]
      constructor
      · intro _; exact hrhs
      · intro _
        rw [hres, hmax]
        exact ⟨rfl, rfl, rfl⟩
  | false =>
      have hrhs : ¬((if p.clock_out = none then "in" else "out") =
          (if openPunches st emp ≠ [] then "out" else "in") ∧
          0 ≤ now - p.clock_out.getD p.clock_in ∧
          now - p.clock_out.getD p.clock_in < w) := by
        intro hc
        have : should_block_duplicate st emp
            (if openPunches st emp ≠ [] then "out" else "in") w now = true := by
          rw [hunf]
          simp only [Bool.and_eq_true, decide_eq_true_eq]
          exact ⟨⟨hc.1, hc.2.1⟩, hc.2.2⟩
        rw [hbb] at this
        exact Bool.false_ne_true this
      constructor
      · intro hl
        exfalso
        have hne : (toggle_punch w fid st q emp method note now).1.status ≠ "blocked" := by
          unfold toggle_punch
          simp only [hbb, Bool.false_eq_true, if_false]
          by_cases ha : ((if openPunches st emp ≠ [] then "out" else "in") = "in")
          · rw [if_pos ha]
            exact clock_in_status_ne_blocked fid st q emp now method note
          · rw [if_neg ha]
            exact clock_out_status_ne_blocked fid st q emp now method note
        exact hne hl.1
      · intro hr; exact absurd hr hrhs

def c2Store : Store :=
  { punches := [⟨1, 5, 10, none, JVal.null, JVal.null⟩,
                ⟨2, 5, 20, some 71, JVal.null, JVal.null⟩],
    nextId := 3 }

def c2Last : Punch := ⟨2, 5, 20, some 71, JVal.null, JVal.null⟩

theorem C2_toggle_blocked_iff_debounce_witness :
    lastPunch c2Store 5 = some c2Last ∧
    ((toggle_punch 30 "f" c2Store [] 5 JVal.null JVal.null 100).1.status = "blocked" ∧
     (toggle_punch 30 "f" c2Store [] 5 JVal.null JVal.null 100).1.reason = some "duplicate" ∧
     (toggle_punch 30 "f" c2Store [] 5 JVal.null JVal.null 100).1.retry_after_seconds = some 30) ∧
    ¬((toggle_punch 30 "f" c2Store [] 5 JVal.null JVal.null 101).1.status = "blocked" ∧
      (toggle_punch 30 "f" c2Store [] 5 JVal.null JVal.null 101).1.reason = some "duplicate" ∧
      (toggle_punch 30 "f" c2Store [] 5 JVal.null JVal.null 101).1.retry_after_seconds = some 30) :=
  ⟨by decide,
   (C2_toggle_blocked_iff_debounce 30 "f" c2Store [] 5 JVal.null JVal.null 100 c2Last
      (by decide)).mpr (by decide),
   fun h => absurd
     ((C2_toggle_blocked_iff_debounce 30 "f" c2Store [] 5 JVal.null JVal.null 101 c2Last
        (by decide)).mp h)
     (by decide)⟩

def c8Store : Store :=
  { punches := [⟨1, 7, 100, none, JVal.null, JVal.null⟩,
                ⟨2, 8, 50, some 60, JVal.null, JVal.null⟩],
    nextId := 3 }

def c8Open : Punch := ⟨1, 7, 100, none, JVal.null, JVal.null⟩

theorem C8_close_requires_exactly_one_open_witness :
    openPunches c8Store 7 = [c8Open] ∧
    (close_open_punch c8Store 7 200).1 = Except.ok c8Open.id ∧
    openPunches (close_open_punch c8Store 7 200).2 7 = [] ∧
    (openPunches c8Store 9).length ≠ 1 ∧
    close_open_punch c8Store 9 200 = (Except.error "expected exactly one open punch", c8Store) :=
  ⟨by decide,
   ((C8_close_requires_exactly_one_open c8Store 7 200).2.2 c8Open (by decide)).1,
   ((C8_close_requires_exactly_one_open c8Store 7 200).2.2 c8Open (by decide)).2.1,
   by decide,
   (C8_close_requires_exactly_one_open c8Store 9 200).2.1 (by decide)⟩

theorem verify_employee_pin_eq_find (f : Pbkdf) (pin : String) (emps : List Employee) :
    verify_employee_pin f pin emps =
      ((emps.filter (fun e => e.active)).find?
        (fun e => verify_pin f pin e.pin_hash)).map Employee.id := by
  induction emps with
  | nil => rfl
  | cons e rest ih =>
      by_cases ha : e.active = true
      · by_cases hv : verify_pin f pin e.pin_hash = true
        · simp [verify_employee_pin, List.filter_cons, ha, hv, List.find?]
        · have hv' : verify_pin f pin e.pin_hash = false := by
            simpa using hv
          simp [verify_employee_pin, List.filter_cons, ha, hv', List.find?, ih]
      · have ha' : e.active = false := by simpa using ha
        simp [verify_employee_pin, List.filter_cons, ha', ih]

/-- C9: verify_employee_pin scans only rows with active=1, in table order, and
returns the id of the first active employee whose stored credential verifies
against the pin; it never returns a disabled employee even when the pin
matches that employee's credential, and returns none exactly when no active
employee matches. -/
theorem C9_verify_employee_pin_active_only (f : Pbkdf) (pin : String)
    (emps : List Employee) :
    (∀ i, verify_employee_pin f pin emps = some i →
       ∃ e, e ∈ emps ∧ e.active = true ∧ verify_pin f pin e.pin_hash = true ∧ e.id = i) ∧
    (verify_employee_pin f pin emps = none ↔
       ∀ e ∈ emps, e.active = true → verify_pin f pin e.pin_hash = false) ∧
    (verify_employee_pin f pin emps =
       ((emps.filter (fun e => e.active)).find?
         (fun e => verify_pin f pin e.pin_hash)).map Employee.id) := by
  refine ⟨?_, ?_, verify_employee_pin_eq_find f pin emps⟩
  · intro i hi
    rw [verify_employee_pin_eq_find] at hi
    cases hfind : (emps.filter (fun e => e.active)).find?
        (fun e => verify_pin f pin e.pin_hash) with
    | none => rw [hfind] at hi; exact absurd hi (by simp)
    | some e =>
        rw [hfind] at hi
        have hid : e.id = i := by simpa using hi
        have hmem : e ∈ emps.filter (fun e => e.active) :=
          List.mem_of_find?_eq_some hfind
        have hmem' := List.mem_filter.mp hmem
        have hpe : verify_pin f pin e.pin_hash = true := by
          have := List.find?_some hfind
          simpa using this
        exact ⟨e, hmem'.1, hmem'.2, hpe, hid⟩
  · rw [verify_employee_pin_eq_find]
    constructor
    · intro hn e he ha
      have hfn : (emps.filter (fun e => e.active)).find?
          (fun e => verify_pin f pin e.pin_hash) = none := Option.map_eq_none'.mp hn
      have := List.find?_eq_none.mp hfn e (List.mem_filter.mpr ⟨he, ha⟩)
      simpa using this
    · intro hall
      have hfn : (emps.filter (fun e => e.active)).find?
          (fun e => verify_pin f pin e.pin_hash) = none := by
        rw [List.find?_eq_none]
        intro e hmem
        have h2 := List.mem_filter.mp hmem
        have := hall e h2.1 h2.2
        simp [this]
      rw [hfn]; rfl

/-- Key-derivation function used only to instantiate witnesses: it maps the
pin "1234" to the byte string [1] and everything else to [0]. -/
def c9Kdf : Pbkdf := fun pin _ _ => if pin = "1234" then [1] else [0]

/-- Stored credential whose digest field decodes to the byte [1]: scheme
pbkdf2_sha256, 200000 iterations, a 16-byte salt of zeros. -/
def c9Hash : String := "pbkdf2_sha256$200000$AAAAAAAAAAAAAAAAAAAAAA==$AQ=="

def c9Emps : List Employee :=
  [⟨7, c9Hash, false⟩, ⟨8, c9Hash, true⟩]

theorem C9_verify_employee_pin_active_only_witness :
    verify_employee_pin c9Kdf "1234" c9Emps = some 8 ∧
    (∃ e, e ∈ c9Emps ∧ e.active = true ∧ verify_pin c9Kdf "1234" e.pin_hash = true ∧
      e.id = 8) :=
  ⟨by decide,
   (C9_verify_employee_pin_active_only c9Kdf "1234" c9Emps).1 8 (by decide)⟩

/-- Malformations of a stored credential enumerated by the claim, stated
relative to a model of int() and a model of base64.b64decode: wrong number
of dollar-separated fields, unsupported scheme, an iteration field the
integer parse rejects or parses below 150000, a salt or digest field the
base64 decode rejects, or a salt whose decoded length is not 16 bytes. -/
def malformedStoredWith (intP : IntParse) (b64P : B64Decode)
    (stored : String) : Prop :=
  (splitDollar stored).length ≠ 4 ∨
  ∃ scheme iter_s salt_b64 hash_b64,
    splitDollar stored = [scheme, iter_s, salt_b64, hash_b64] ∧
    (scheme ≠ "pbkdf2_sha256".toList ∨
     intP iter_s = none ∨
     (∃ n, intP iter_s = some n ∧ n < 150000) ∨
     b64P salt_b64 = none ∨
     b64P hash_b64 = none ∨
     (∃ salt, b64P salt_b64 = some salt ∧ salt.length ≠ 16))

/-- C10: verify_pin is a total boolean function of its two string arguments —
in this embedding every raise inside is an explicit none collapsed to
False — and, for every behaviour of the two library calls it makes (int()
on the iteration field, base64.b64decode on the salt and digest fields), it
returns false on every stored credential that is malformed relative to that
behaviour, whatever the supplied pin: wrong field count, unsupported
scheme, an iteration count the integer parse rejects or one below the
150000 floor, undecodable base64, or a decoded salt length other than 16.
Instantiating the parameters with the actual library behaviour yields the
statement for the program; instantiating them with the executable example
models yields it for verify_pin of this file (verify_pin_eq_with). -/
theorem C10_verify_pin_rejects_malformed (f : Pbkdf) (intP : IntParse)
    (b64P : B64Decode) (pin stored : String)
    (h : malformedStoredWith intP b64P stored) :
    verify_pinWith f intP b64P pin stored = false := by
  suffices hp : parse_storedWith intP b64P stored = none by
    unfold verify_pinWith; rw [hp]
  rcases h with hlen | ⟨sc, it, sa, hb, heq, hcase⟩
  · unfold parse_storedWith
    split
    · next a b c d heq2 => rw [heq2] at hlen; simp at hlen
    · rfl
  · unfold parse_storedWith
    split
    · next a b c d heq2 =>
        rw [heq] at heq2
        obtain ⟨h1, h2, h3, h4⟩ : sc = a ∧ it = b ∧ sa = c ∧ hb = d := by
          simpa using heq2
        subst h1; subst h2; subst h3; subst h4
        by_cases hsc : sc = "pbkdf2_sha256".toList
        · rw [if_neg (not_not_intro hsc)]
          split
          · rfl
          · next m hpi =>
              split
              · rfl
              · next hm =>
                  split
                  · rfl
                  · next salt hsa =>
                      split
                      · rfl
                      · next dg hhb =>
                          split
                          · rfl
                          · next hl =>
                              exfalso
                              rcases hcase with hx | hx | ⟨n, hn, hlt⟩ | hx | hx | ⟨s2, hs2, hl2⟩
                              · exact hx hsc
                              · exact Option.noConfusion (hx.symm.trans hpi)
                              · exact hm (Option.some.inj (hn.symm.trans hpi) ▸ hlt)
                              · exact Option.noConfusion (hx.symm.trans hsa)
                              · exact Option.noConfusion (hx.symm.trans hhb)
                              · exact hl (Option.some.inj (hs2.symm.trans hsa) ▸ hl2)
        · rw [if_pos hsc]
    · next hnone => exact absurd heq (hnone sc it sa hb)

/-- Trivial key-derivation function used only to instantiate the witness. -/
def c10Kdf : Pbkdf := fun _ _ _ => []

theorem C10_verify_pin_rejects_malformed_witness :
    malformedStoredWith pyIntChars b64dChars "abc" ∧
    verify_pinWith c10Kdf pyIntChars b64dChars "1234" "abc" = false ∧
    verify_pin c10Kdf "1234" "abc" = false :=
  ⟨Or.inl (by decide),
   C10_verify_pin_rejects_malformed c10Kdf pyIntChars b64dChars "1234" "abc"
     (Or.inl (by decide)),
   by decide⟩

def c3FutureAttempts : List PinAttempt :=
  List.replicate 5 ⟨1100, "k1", false, none, none⟩

/-- C3 counterexample: the claim counts only failed attempts with timestamp
inside [now − window, now], but the query in check_pin_lockout has no upper
bound (ts>=? only).  Five failed attempts recorded 100 seconds in the future
of now are outside the claim's window — its count is 0, below the threshold
of 5, so the claim reports unlocked — yet the code counts them and reports
locked until the most recent of them plus the lockout duration. -/
theorem C3_lockout_window_cex :
    check_pin_lockout 300 5 10 c3FutureAttempts "k1" 1000 = some (true, some 1700) ∧
    (c3FutureAttempts.filter (fun a =>
        a.source == "k1" && a.success == false &&
        decide (1000 - 300 ≤ a.ts) && decide (a.ts ≤ 1000))).length < 5 := by
  decide

/-- Lockout state as the amended claim words it: count the failed attempts of
the source with timestamp at or after now minus the window (no upper bound);
when the count is at or above the threshold and now is before the most recent
failure plus the lockout duration, locked with exactly that instant;
otherwise unlocked with no timestamp. -/
def lockoutSpec (window_s max_attempts lockout_min : Int)
    (attempts : List PinAttempt) (source : String) (now : Int) : Bool × Option Int :=
  let failures := failedAttemptsFrom attempts source (now - window_s)
  match (failures.map PinAttempt.ts).max? with
  | none => (false, none)
  | some most_recent =>
      if max_attempts ≤ (failures.length : Int) ∧ now < most_recent + lockout_min * 60 then
        (true, some (most_recent + lockout_min * 60))
      else (false, none)

/-- C3 amended: whenever the threshold is at least one attempt (so the code's
rows[0] access cannot fault), check_pin_lockout returns without raising and
agrees exactly with the amended lockout predicate: failed attempts of the
source with timestamp at or after now − window are counted, and the result is
locked with until = most recent failure + lockout duration precisely when the
count reaches the threshold and now is before that instant, else unlocked
with no timestamp. -/
theorem C3_lockout_amended (window_s max_attempts lockout_min : Int)
    (attempts : List PinAttempt) (source : String) (now : Int)
    (hmax : 1 ≤ max_attempts) :
    check_pin_lockout window_s max_attempts lockout_min attempts source now =
      some (lockoutSpec window_s max_attempts lockout_min attempts source now) := by
  simp only [check_pin_lockout, lockoutSpec]
  by_cases hc : max_attempts ≤
      ((failedAttemptsFrom attempts source (now - window_s)).length : Int)
  · rw [if_pos hc]
    cases hmx : ((failedAttemptsFrom attempts source (now - window_s)).map
        PinAttempt.ts).max? with
    | none =>
        exfalso
        have hmap : (failedAttemptsFrom attempts source (now - window_s)).map
            PinAttempt.ts = [] := by
          simpa using hmx
        have hnil : failedAttemptsFrom attempts source (now - window_s) = [] :=
          List.map_eq_nil_iff.mp hmap
        rw [hnil] at hc
        simp at hc
        omega
    | some mr =>
        by_cases ht : now < mr + lockout_min * 60
        · simp [ht, hc]
        · simp [ht]
  · rw [if_neg hc]
    cases hmx : ((failedAttemptsFrom attempts source (now - window_s)).map
        PinAttempt.ts).max? with
    | none => rfl
    | some mr => simp [hc]

def c3WindowAttempts : List PinAttempt :=
  List.replicate 5 ⟨900, "k1", false, none, none⟩

theorem C3_lockout_amended_witness :
    (1 : Int) ≤ 5 ∧
    check_pin_lockout 300 5 10 c3WindowAttempts "k1" 1000 =
      some (lockoutSpec 300 5 10 c3WindowAttempts "k1" 1000) ∧
    lockoutSpec 300 5 10 c3WindowAttempts "k1" 1000 = (true, some 1500) ∧
    check_pin_lockout 300 5 10 c3WindowAttempts "k1" 1501 =
      some (lockoutSpec 300 5 10 c3WindowAttempts "k1" 1501) ∧
    lockoutSpec 300 5 10 c3WindowAttempts "k1" 1501 = (false, none) :=
  ⟨by decide,
   C3_lockout_amended 300 5 10 c3WindowAttempts "k1" 1000 (by decide),
   by decide,
   C3_lockout_amended 300 5 10 c3WindowAttempts "k1" 1501 (by decide),
   by decide⟩

theorem reconcile_cycle_queue_eq (q : QueueFile) (st : Store) :
    (reconcile_cycle q st).queue =
      remove_events (reconcile_cycle q st).applied_ids q := by
  simp only [reconcile_cycle]
  split
  · next hsw => simp [hsw, remove_events]
  · next hsw => rfl

theorem reconcile_cycle_removeCalls_eq (q : QueueFile) (st : Store) :
    (reconcile_cycle q st).removeCalls =
      (if (reconcile_cycle q st).applied_ids = [] then []
       else [(reconcile_cycle q st).applied_ids]) := by
  simp only [reconcile_cycle]
  split
  · next hsw => simp [hsw]
  · next hsw => simp [hsw]

def c4FailStore : Store := { punches := [], nextId := 1 }

def c4FailQueue : QueueFile :=
  [QLine.parsed (mkEvent "e1" "clock_out" 1 100 JVal.null JVal.null)]

/-- C4 counterexample: the claim says that after sweeping all events, remove
is called once with exactly the set of identifiers of the successfully
applied events.  With a queue holding one clock_out event that fails to apply
(no open punch exists), that set is empty — yet the cycle calls remove zero
times, not once with the empty set, because the call sits under the guard
if applied_ids: in _run_loop. -/
theorem C4_cycle_remove_called_once_cex :
    (reconcile_cycle c4FailQueue c4FailStore).applied_ids = [] ∧
    (reconcile_cycle c4FailQueue c4FailStore).removeCalls ≠
      [(reconcile_cycle c4FailQueue c4FailStore).applied_ids] ∧
    (reconcile_cycle c4FailQueue c4FailStore).queue = c4FailQueue := by
  decide

/-- C4 amended: in every reconciler cycle the queue is snapshotted to
completion before any mutation (the sweep runs over iter_events of the
pre-cycle file); a clock_in event with int-coercible employee id and a
timestamp calls the store's open-punch insert and succeeds exactly when the
insert does, a clock_out event likewise calls the close-open-punch update,
and an event of any other kind is treated as successfully handled with the
store untouched; an event whose application raises is left in the queue for
the next cycle (the post-cycle queue, read back through iterate, holds
exactly the snapshot events whose id is not among the successfully applied
ids, falsy ids never being removed); and remove is called exactly once with
precisely the list of successfully applied ids when at least one event
applied, and zero times when none did. -/
theorem C4_cycle_applies_and_removes (q : QueueFile) (st : Store) :
    (∀ st₀ ev, jget ev "kind" ≠ JVal.str "clock_in" →
       jget ev "kind" ≠ JVal.str "clock_out" → applyEvent st₀ ev = some st₀) ∧
    (∀ st₀ ev emp ts, jget ev "kind" = JVal.str "clock_in" →
       pyInt (jget ev "employee_id") = some emp → tsOf (jget ev "ts") = some ts →
       applyEvent st₀ ev =
         (match insert_punch st₀ emp ts (jget ev "method") (jget ev "note") with
          | (Except.ok _, st') => some st'
          | (Except.error _, _) => none)) ∧
    (∀ st₀ ev emp ts, jget ev "kind" = JVal.str "clock_out" →
       pyInt (jget ev "employee_id") = some emp → tsOf (jget ev "ts") = some ts →
       applyEvent st₀ ev =
         (match close_open_punch st₀ emp ts with
          | (Except.ok _, st') => some st'
          | (Except.error _, _) => none)) ∧
    iter_events (reconcile_cycle q st).queue =
      (iter_events q).filter (fun e =>
        !(vTruthy (evId e) && (reconcile_cycle q st).applied_ids.contains (evId e))) ∧
    (reconcile_cycle q st).removeCalls =
      (if (reconcile_cycle q st).applied_ids = [] then []
       else [(reconcile_cycle q st).applied_ids]) := by
  refine ⟨?_, ?_, ?_, ?_, reconcile_cycle_removeCalls_eq q st⟩
  · intro st₀ ev h1 h2
    simp only [applyEvent]
    rw [if_neg h1, if_neg h2]
  · intro st₀ ev emp ts hk hemp hts
    simp only [applyEvent]
    rw [if_pos hk, hemp, hts]
  · intro st₀ ev emp ts hk hemp hts
    simp only [applyEvent]
    rw [if_neg (by simp [hk]), if_pos hk, hemp, hts]
  · rw [reconcile_cycle_queue_eq]
    exact iter_events_remove_events _ q

def c4Store : Store := { punches := [], nextId := 1 }

def c4EvIn : Json := mkEvent "a" "clock_in" 1 100 (JVal.str "kiosk") JVal.null

def c4EvOdd : Json := mkEvent "b" "mystery" 2 200 (JVal.str "kiosk") JVal.null

def c4EvOut : Json := mkEvent "c" "clock_out" 3 300 (JVal.str "kiosk") JVal.null

def c4Queue : QueueFile :=
  [QLine.parsed c4EvIn, QLine.corrupt, QLine.parsed c4EvOdd, QLine.parsed c4EvOut]

theorem C4_cycle_applies_and_removes_witness :
    applyEvent c4Store c4EvOdd = some c4Store ∧
    (reconcile_cycle c4Queue c4Store).applied_ids = [JVal.str "a", JVal.str "b"] ∧
    iter_events (reconcile_cycle c4Queue c4Store).queue =
      (iter_events c4Queue).filter (fun e =>
        !(vTruthy (evId e) &&
          (reconcile_cycle c4Queue c4Store).applied_ids.contains (evId e))) ∧
    iter_events (reconcile_cycle c4Queue c4Store).queue = [c4EvOut] ∧
    (reconcile_cycle c4Queue c4Store).removeCalls = [[JVal.str "a", JVal.str "b"]] :=
  ⟨(C4_cycle_applies_and_removes c4Queue c4Store).1 c4Store c4EvOdd
     (by decide) (by decide),
   by decide,
   (C4_cycle_applies_and_removes c4Queue c4Store).2.2.2.1,
   by decide,
   by decide⟩

theorem punchInv_insert (st : Store) (h : punchInv st) (emp ts : Int)
    (method note : JVal) : punchInv (insert_punch st emp ts method note).2 := by
  unfold insert_punch
  by_cases hne : openPunches st emp ≠ []
  · rw [if_pos hne]; exact h
  · rw [if_neg hne]
    have hnil : openPunches st emp = [] := not_not.mp hne
    simp only [openPunches] at hnil
    intro e
    simp only [openPunches, List.filter_append]
    by_cases he : emp = e
    · subst he
      rw [hnil]
      simp
    · have h1 := h e
      simp only [openPunches] at h1
      have h2 : List.filter (fun p => decide (p.employee_id = e) && p.clock_out.isNone)
          [(⟨st.nextId, emp, ts, none, method, note⟩ : Punch)] = [] := by
        simp [he]
      rw [h2]
      simpa using h1

theorem length_filter_map_le {α : Type} (f : α → α) (p : α → Bool)
    (hf : ∀ a, p (f a) = true → p a = true) (l : List α) :
    ((l.map f).filter p).length ≤ (l.filter p).length := by
  induction l with
  | nil => simp
  | cons a tl ih =>
      simp only [List.map_cons, List.filter_cons]
      by_cases hpa : p (f a) = true
      · rw [if_pos hpa, if_pos (hf a hpa)]
        simpa using ih
      · rw [if_neg hpa]
        by_cases hpa2 : p a = true
        · rw [if_pos hpa2]
          exact le_trans ih (by simp)
        · rw [if_neg hpa2]
          exact ih

theorem punchInv_close (st : Store) (h : punchInv st) (emp ts : Int) :
    punchInv (close_open_punch st emp ts).2 := by
  unfold close_open_punch
  split
  · next p hos =>
      intro e
      simp only [openPunches]
      refine le_trans (length_filter_map_le _ _ ?_ st.punches) (h e)
      intro a hpa
      by_cases hid : a.id = p.id
      · rw [if_pos hid] at hpa
        simp at hpa
      · rw [if_neg hid] at hpa
        exact hpa
  · next => exact h

theorem punchInv_apply (st st' : Store) (h : punchInv st) (ev : Json)
    (ha : applyEvent st ev = some st') : punchInv st' := by
  simp only [applyEvent] at ha
  by_cases h1 : jget ev "kind" = JVal.str "clock_in"
  · rw [if_pos h1] at ha
    cases hpe : pyInt (jget ev "employee_id") with
    | none => rw [hpe] at ha; simp at ha
    | some emp =>
        cases hte : tsOf (jget ev "ts") with
        | none => rw [hpe, hte] at ha; simp at ha
        | some ts =>
            rw [hpe, hte] at ha
            have ha2 : (match insert_punch st emp ts (jget ev "method")
                  (jget ev "note") with
                | (Except.ok _, stx) => some stx
                | (Except.error _, _) => none) = some st' := ha
            cases hins : insert_punch st emp ts (jget ev "method") (jget ev "note") with
            | mk r s2 =>
                rw [hins] at ha2
                cases r with
                | ok pid =>
                    have hinv := punchInv_insert st h emp ts (jget ev "method")
                      (jget ev "note")
                    rw [hins] at hinv
                    have hs : punchInv s2 := hinv
                    have hst : s2 = st' := by simpa using ha2
                    exact hst ▸ hs
                | error e => simp at ha2
  · rw [if_neg h1] at ha
    by_cases h2 : jget ev "kind" = JVal.str "clock_out"
    · rw [if_pos h2] at ha
      cases hpe : pyInt (jget ev "employee_id") with
      | none => rw [hpe] at ha; simp at ha
      | some emp =>
          cases hte : tsOf (jget ev "ts") with
          | none => rw [hpe, hte] at ha; simp at ha
          | some ts =>
              rw [hpe, hte] at ha
              have ha2 : (match close_open_punch st emp ts with
                  | (Except.ok _, stx) => some stx
                  | (Except.error _, _) => none) = some st' := ha
              cases hcl : close_open_punch st emp ts with
              | mk r s2 =>
                  rw [hcl] at ha2
                  cases r with
                  | ok pid =>
                      have hinv := punchInv_close st h emp ts
                      rw [hcl] at hinv
                      have hs : punchInv s2 := hinv
                      have hst : s2 = st' := by simpa using ha2
                      exact hst ▸ hs
                  | error e => simp at ha2
    · rw [if_neg h2] at ha
      exact (Option.some.inj ha) ▸ h

theorem punchInv_sweep (evs : List Json) (acc : Store × List JVal)
    (h : punchInv acc.1) : punchInv (evs.foldl sweepStep acc).1 := by
  induction evs generalizing acc with
  | nil => exact h
  | cons ev rest ih =>
      simp only [List.foldl_cons]
      apply ih
      unfold sweepStep
      cases hae : applyEvent acc.1 ev with
      | some st' => exact punchInv_apply acc.1 st' h ev hae
      | none => exact h

theorem punchInv_cycle (q : QueueFile) (st : Store) (h : punchInv st) :
    punchInv (reconcile_cycle q st).store := by
  simp only [reconcile_cycle]
  split
  · exact punchInv_sweep (iter_events q) (st, []) h
  · exact punchInv_sweep (iter_events q) (st, []) h

theorem punchInv_toggle (w : Int) (fid : String) (st : Store) (q : QueueFile)
    (emp : Int) (method note : JVal) (now : Int) (h : punchInv st) :
    punchInv (toggle_punch w fid st q emp method note now).2.1 := by
  have hin : punchInv (clock_in fid st q emp now method note).2.1 := by
    unfold clock_in
    split
    · exact h
    · split
      · next pid s heq =>
          have hins := punchInv_insert st h emp now method note
          rw [heq] at hins
          exact hins
      · next e s heq =>
          have hins := punchInv_insert st h emp now method note
          rw [heq] at hins
          exact hins
  have hout : punchInv (clock_out fid st q emp now method note).2.1 := by
    unfold clock_out
    split
    · next pid s heq =>
        have hcl := punchInv_close st h emp now
        rw [heq] at hcl
        exact hcl
    · next e s heq =>
        have hcl := punchInv_close st h emp now
        rw [heq] at hcl
        exact hcl
  simp only [toggle_punch]
  by_cases hb : should_block_duplicate st emp
      (if openPunches st emp ≠ [] then "out" else "in") w now = true
  · rw [if_pos hb]
    exact h
  · rw [if_neg hb]
    by_cases ha : ((if openPunches st emp ≠ [] then "out" else "in") = "in")
    · rw [if_pos ha]
      exact hin
    · rw [if_neg ha]
      exact hout

/-- C1: the open-punch invariant — every employee has at most one punch row
with a null clock-out — is preserved by every core operation executed
serially from an invariant-satisfying state: by insert_punch (which refuses
a second open punch), by close_open_punch (which only ever sets clock-outs),
by toggle_punch (whose fallback paths only enqueue and leave the table
alone), and by a full reconciler cycle applying queued events (each applied
event goes through insert_punch or close_open_punch, failures leave the
store untouched, and remove_events only touches the queue file). -/
theorem C1_at_most_one_open_punch (st : Store) (h : punchInv st) :
    (∀ emp ts : Int, ∀ method note : JVal,
       punchInv (insert_punch st emp ts method note).2) ∧
    (∀ emp ts : Int, punchInv (close_open_punch st emp ts).2) ∧
    (∀ (w : Int) (fid : String) (q : QueueFile) (emp : Int) (method note : JVal)
       (now : Int), punchInv (toggle_punch w fid st q emp method note now).2.1) ∧
    (∀ q : QueueFile, punchInv (reconcile_cycle q st).store) :=
  ⟨fun emp ts method note => punchInv_insert st h emp ts method note,
   fun emp ts => punchInv_close st h emp ts,
   fun w fid q emp method note now => punchInv_toggle w fid st q emp method note now h,
   fun q => punchInv_cycle q st h⟩

def c1Store : Store := { punches := [], nextId := 1 }

theorem C1_at_most_one_open_punch_witness :
    punchInv c1Store ∧
    punchInv (insert_punch c1Store 1 100 JVal.null JVal.null).2 ∧
    punchInv (toggle_punch 30 "f1" c1Store [] 1 JVal.null JVal.null 100).2.1 ∧
    punchInv (reconcile_cycle [QLine.parsed (mkEvent "e9" "clock_in" 4 50 JVal.null
      JVal.null)] c1Store).store :=
  ⟨fun e => by simp [openPunches, c1Store],
   (C1_at_most_one_open_punch c1Store (fun e => by simp [openPunches, c1Store])).1
     1 100 JVal.null JVal.null,
   (C1_at_most_one_open_punch c1Store (fun e => by simp [openPunches, c1Store])).2.2.1
     30 "f1" [] 1 JVal.null JVal.null 100,
   (C1_at_most_one_open_punch c1Store (fun e => by simp [openPunches, c1Store])).2.2.2
     [QLine.parsed (mkEvent "e9" "clock_in" 4 50 JVal.null JVal.null)]⟩

end PunchPad
